import Mathlib

/-!
Shallow embedding of the toon-to-SQLite conversion pipeline
(`scripts/convert_all_to_sql.py`) and proofs about its parsing and
partitioning behaviour.

Modelling conventions, used throughout:
* a Python string is a `List Char` (`Str` below); a text file is a
  `List Str`, one entry per line with the trailing newline removed by the
  surrounding `for line in f` iteration being folded into the per-line
  `strip`/`rstrip` calls that every parser performs first;
* `str.strip()` / `\s` are modelled over the six ASCII whitespace
  characters; `\d` and `\w` are modelled over ASCII, matching the data the
  pipeline actually consumes;
* SQL tables are modelled as the sequence of rows the code inserts, in
  insertion order; nullable SQL columns are `Option` values;
* a Python exception that would escape the function (and abort the run) is
  an `Except Unit` error value.
-/

namespace QuranToSql

/-- A Python string, as a list of characters. -/
abbrev Str := List Char

/-- The ASCII whitespace characters stripped by Python's `str.strip()` and
matched by `\s`. -/
def isPySpace (c : Char) : Bool :=
  c = ' ' || c = '\t' || c = '\n' || c = '\r' || c = '\x0b' || c = '\x0c'

/-- `str.lstrip()`. -/
def lstrip (s : Str) : Str := s.dropWhile isPySpace

/-- `str.rstrip()`. -/
def rstrip (s : Str) : Str := (s.reverse.dropWhile isPySpace).reverse

/-- `str.strip()`. -/
def pyStrip (s : Str) : Str := rstrip (lstrip s)

/-- `str.lower()` (ASCII). -/
def pyLower (s : Str) : Str := s.map Char.toLower

/-- `s.startswith(p)`. -/
def startsWith (p s : Str) : Bool := p.isPrefixOf s

/-- Numeric value of a decimal digit string (most significant first). -/
def digitsToNat (ds : Str) : Nat := ds.foldl (fun acc c => acc * 10 + (c.toNat - '0'.toNat)) 0

/-- `int(s)` on an already stripped string: an optional sign followed by a
nonempty run of decimal digits.  (Numeric-literal underscores accepted by
CPython are not modelled; no input in scope contains them.) -/
def pyIntCore (s : Str) : Option Int :=
  match s with
  | [] => none
  | c :: rest =>
    if c = '-' then
      if rest ≠ [] ∧ rest.all Char.isDigit then some (-(digitsToNat rest : Int)) else none
    else if c = '+' then
      if rest ≠ [] ∧ rest.all Char.isDigit then some (digitsToNat rest : Int) else none
    else if (c :: rest).all Char.isDigit then some (digitsToNat (c :: rest) : Int) else none

/-- `int(s)`: CPython strips surrounding whitespace before converting. -/
def pyInt (s : Str) : Option Int := pyIntCore (pyStrip s)

/-- `s.split(sep)` for a single-character separator (no maxsplit). -/
def pySplit (sep : Char) : Str → List Str
  | [] => [[]]
  | c :: cs =>
    if c = sep then [] :: pySplit sep cs
    else
      match pySplit sep cs with
      | [] => [[c]]
      | p :: ps => (c :: p) :: ps

/-- `s.split(sep, 1)[1]` when the guard already ensured `sep ∈ s`:
everything after the first occurrence of `sep`. -/
def afterFirst (sep : Char) (s : Str) : Str :=
  match s.dropWhile (fun c => !(c = sep)) with
  | [] => []
  | _ :: tail => tail

/-- `enumerate`-style traversal: `enumRows f i [a, b, ...] = f i a ++ f (i+1) b ++ ...`.
Models loops of the form `for i, x in enumerate(xs): emit(f(start + i, x))`. -/
def enumRows (f : Nat → α → List β) : Nat → List α → List β
  | _, [] => []
  | i, a :: as => f i a ++ enumRows f (i + 1) as

/-! ## Flat-tuple lines: `parse_quran_toon` and `parse_edition_toon_file`

Both parsers run `re.match(r'\s*(\d+),(\d+),(.+)$', line)` on the stripped
line.  The regex is deterministic here: `\s*` and `\d+` are maximal munch
(whitespace, digits and `,` are pairwise disjoint), and `(.+)$` captures the
whole remainder, which on a stripped line can contain no newline, so the
`.`/`$` newline subtleties never fire; the explicit newline check below
keeps the model exact even off that domain. -/

/-- `re.match(r'\s*(\d+),(\d+),(.+)$', line)`, returning
(`int(group(1))`, `int(group(2))`, `group(3)`). -/
def matchFlatTuple (line : Str) : Option (Nat × Nat × Str) :=
  let l1 := lstrip line
  let d1 := l1.takeWhile Char.isDigit
  if d1 = [] then none
  else
    match l1.dropWhile Char.isDigit with
    | ',' :: r2 =>
      let d2 := r2.takeWhile Char.isDigit
      if d2 = [] then none
      else
        match r2.dropWhile Char.isDigit with
        | ',' :: rest =>
          if rest ≠ [] ∧ rest.all (fun c => !(c = '\n')) then
            some (digitsToNat d1, digitsToNat d2, rest)
          else none
        | _ => none
    | _ => none

/-- One iteration of the line loop of `parse_quran_toon` / of
`parse_edition_toon_file`: strip the line, skip blank lines and the
`quran[` header, match the flat-tuple regex, then strip the payload and
remove one layer of wrapping quotes.  (The `'" '` elif branch of
`parse_quran_toon` is unreachable: any string starting with `'" '` already
starts with `'"'`, so the first branch takes it; both functions therefore
perform the same per-line computation.) -/
def parseFlatLine (raw : Str) : Option (Nat × Nat × Str) :=
  let line := pyStrip raw
  if line = [] then none
  else if startsWith ("quran[".data) line then none
  else
    match matchFlatTuple line with
    | none => none
    | some (s, a, rest) =>
      let text := pyStrip rest
      let text :=
        if text.head? = some '"' ∧ text.getLast? = some '"' then
          (text.drop 1).dropLast
        else text
      some (s, a, text)

/-- `parse_quran_toon`, over the lines of `quran.toon`. -/
def parse_quran_toon (lines : List Str) : List (Nat × Nat × Str) :=
  lines.filterMap parseFlatLine

/-- `parse_edition_toon_file`, over the lines of one edition document. -/
def parse_edition_toon_file (lines : List Str) : List (Nat × Nat × Str) :=
  lines.filterMap parseFlatLine

example : parseFlatLine ("1,1,\"In the name of Allah\"".data) =
    some (1, 1, "In the name of Allah".data) := by decide
example : parseFlatLine ("3,12,\"a, b, c\"".data) = some (3, 12, "a, b, c".data) := by decide
example : parseFlatLine ("quran[6236]:".data) = none := by decide
example : parseFlatLine ("1,x,\"t\"".data) = none := by decide

/-! ## Nested blocks: `parse_info_toon` and `create_info_db`

`parse_info_toon` folds over the lines of `info.toon` keeping the mutable
state `(surahs, current_surah, verses, in_verses)`.  `current_surah` is a
Python dict whose truthiness is nonemptiness: `none` below models the empty
dict.  The unguarded `int(...)` calls raise `ValueError` on non-numeric
payloads and abort the whole function; this is the `.error ()` outcome. -/

/-- One row of the `verses[...]` sub-table of a chapter block. -/
structure VerseInfoRec where
  verse : Int
  line : Int
  juz : Int
  manzil : Int
  page : Int
  ruku : Int
  maqra : Int
  sajda : Bool
deriving DecidableEq

/-- The `current_surah` dict while a chapter block is being accumulated. -/
structure PartialSurah where
  chapter : Option Int
  name : Option Str
  englishname : Option Str
  arabicname : Option Str
  revelation : Option Str
deriving DecidableEq

/-- The dict with no keys set. -/
def emptyPartial : PartialSurah := ⟨none, none, none, none, none⟩

/-- A finished surah record: the accumulated dict plus its `verses` list. -/
structure SurahRec where
  chapter : Option Int
  name : Option Str
  englishname : Option Str
  arabicname : Option Str
  revelation : Option Str
  verses : List VerseInfoRec
deriving DecidableEq

/-- `current_surah['verses'] = verses; surahs.append(current_surah)`. -/
def finishSurah (p : PartialSurah) (vs : List VerseInfoRec) : SurahRec :=
  ⟨p.chapter, p.name, p.englishname, p.arabicname, p.revelation, vs⟩

/-- The loop state of `parse_info_toon`. -/
structure InfoState where
  surahs : List SurahRec
  current : Option PartialSurah
  verses : List VerseInfoRec
  in_verses : Bool
deriving DecidableEq

/-- The state before the first line. -/
def initInfoState : InfoState := ⟨[], none, [], false⟩

/-- `re.match(r'\s+\d+,', line)`: leading whitespace, then digits, then a
comma. -/
def matchesVerseLead (line : Str) : Bool :=
  let r := line.dropWhile isPySpace
  line.takeWhile isPySpace ≠ [] &&
    r.takeWhile Char.isDigit ≠ [] &&
    (r.dropWhile Char.isDigit).head? == some ','

/-- Build one `verses` entry from the comma-split fields; any failing
`int()` coercion aborts the run. -/
def verseEntryOfParts (parts : List Str) : Except Unit VerseInfoRec :=
  match pyInt (parts.getD 0 []), pyInt (parts.getD 1 []), pyInt (parts.getD 2 []),
      pyInt (parts.getD 3 []), pyInt (parts.getD 4 []), pyInt (parts.getD 5 []),
      pyInt (parts.getD 6 []) with
  | some v0, some v1, some v2, some v3, some v4, some v5, some v6 =>
    .ok ⟨v0, v1, v2, v3, v4, v5, v6, pyLower (parts.getD 7 []) == "true".data⟩
  | _, _, _, _, _, _, _ => .error ()

/-- One iteration of the `parse_info_toon` line loop. -/
def infoStep (st : InfoState) (raw : Str) : Except Unit InfoState :=
  let line := rstrip raw
  let ls := pyStrip line
  if startsWith ("- chapter:".data) ls then
    match pyInt ((pySplit ':' line).getD 1 []) with
    | none => .error ()
    | some n =>
      .ok { surahs := st.surahs ++
              (match st.current with
               | some p => [finishSurah p st.verses]
               | none => []),
            current := some { emptyPartial with chapter := some n },
            verses := [], in_verses := false }
  else if startsWith ("name:".data) ls && st.current.isSome then
    .ok { st with current :=
            st.current.map fun p => { p with name := some (pyStrip (afterFirst ':' line)) } }
  else if startsWith ("englishname:".data) ls then
    let p := st.current.getD emptyPartial
    .ok { st with current := some { p with englishname := some (pyStrip (afterFirst ':' line)) } }
  else if startsWith ("arabicname:".data) ls then
    let p := st.current.getD emptyPartial
    .ok { st with current := some { p with arabicname := some (pyStrip (afterFirst ':' line)) } }
  else if startsWith ("revelation:".data) ls then
    let p := st.current.getD emptyPartial
    .ok { st with current := some { p with revelation := some (pyStrip (afterFirst ':' line)) } }
  else if startsWith ("verses[".data) ls then
    .ok { st with in_verses := true }
  else if st.in_verses && matchesVerseLead line then
    let parts := pySplit ',' (pyStrip line)
    if parts.length ≥ 8 then do
      let v ← verseEntryOfParts parts
      .ok { st with verses := st.verses ++ [v] }
    else .ok st
  else .ok st

/-- `parse_info_toon`: fold the line loop, then flush the final pending
record (`if current_surah: ... surahs.append(current_surah)`). -/
def parse_info_toon (lines : List Str) : Except Unit (List SurahRec) := do
  let st ← lines.foldlM infoStep initInfoState
  return st.surahs ++
    (match st.current with
     | some p => [finishSurah p st.verses]
     | none => [])

/-- One row of the `surahs` table of `info.db`.  `verse_count` is
`len(s.get('verses', []))`: the model has no input field it could be copied
from. -/
structure SurahRow where
  id : Option Int
  name : Option Str
  english_name : Option Str
  arabic_name : Option Str
  revelation : Option Str
  verse_count : Nat
deriving DecidableEq

/-- One row of the `verse_info` table of `info.db`. -/
structure VerseRow where
  surah : Int
  ayah : Int
  line : Int
  juz : Int
  manzil : Int
  page : Int
  ruku : Int
  maqra : Int
  sajda : Bool
deriving DecidableEq

/-- The `surahs` row inserted for one record by `create_info_db`. -/
def surah_row (s : SurahRec) : SurahRow :=
  ⟨s.chapter, s.name, s.englishname, s.arabicname, s.revelation, s.verses.length⟩

/-- The `verse_info` rows inserted for one record.  `s['chapter']` raises
`KeyError` (aborting the run) when the key is absent and the verse loop
actually runs. -/
def verse_rows_of (s : SurahRec) : Except Unit (List VerseRow) :=
  match s.verses, s.chapter with
  | [], _ => .ok []
  | _ :: _, none => .error ()
  | vs, some c =>
    .ok (vs.map fun v => ⟨c, v.verse, v.line, v.juz, v.manzil, v.page, v.ruku, v.maqra, v.sajda⟩)

/-- The row sequences `create_info_db` inserts into `surahs` and
`verse_info` (tables modelled as insertion sequences). -/
def create_info_rows : List SurahRec → Except Unit (List SurahRow × List VerseRow)
  | [] => .ok ([], [])
  | s :: rest => do
    let vs ← verse_rows_of s
    let (srows, vrows) ← create_info_rows rest
    return (surah_row s :: srows, vs ++ vrows)

/-- The `verse_info` rows one record contributes on the successful path of
`verse_rows_of` (its `chapter` key present). -/
def infoVerseRows (s : SurahRec) : List VerseRow :=
  s.verses.map fun v =>
    ⟨s.chapter.getD 0, v.verse, v.line, v.juz, v.manzil, v.page, v.ruku, v.maqra, v.sajda⟩

example : parse_info_toon (["- chapter: 1".data, "name: Al-Fatiha".data]) =
    .ok [⟨some 1, some ("Al-Fatiha".data), none, none, none, []⟩] := rfl
example : parse_info_toon (["- chapter: x".data]) = .error () := rfl
example :
    parse_info_toon
      (["- chapter: 1".data, "verses[".data, "  1,1,1,1,1,1,1,true".data]) =
    .ok [⟨some 1, none, none, none, none, [⟨1, 1, 1, 1, 1, 1, 1, true⟩]⟩] := rfl

/-! ## Editions: `parse_editions_toon` and `create_editions_chunked` -/

/-- One edition-metadata record from `editions.toon`. -/
structure EditionMeta where
  id : Str
  author : Str
  language : Str
  direction : Str
  source : Str
  note : Str
deriving DecidableEq

/-- One character step of the quote-aware splitter of `parse_editions_toon`.
Quote characters toggle the state and are never copied into the current
field, so the trailing `.strip('"')` the code applies is a no-op and only
the `.strip()` is modelled. -/
def splitQuotedStep (s : List Str × Str × Bool) (c : Char) : List Str × Str × Bool :=
  let (parts, cur, inq) := s
  if c = '"' then (parts, cur, !inq)
  else if c = ',' && !inq then (parts ++ [pyStrip cur], [], inq)
  else (parts, cur ++ [c], inq)

/-- The quote-aware comma split of one `editions.toon` line. -/
def splitQuoted (line : Str) : List Str :=
  let (parts, cur, _) := line.foldl splitQuotedStep ([], [], false)
  parts ++ [pyStrip cur]

/-- One iteration of the `parse_editions_toon` line loop: fields 4 and 5
(`source`, `note`) default to the empty string when absent; records with
fewer than four fields are dropped. -/
def parseEditionsLine (raw : Str) : Option EditionMeta :=
  let line := pyStrip raw
  if line = [] then none
  else if startsWith ("meta:".data) line then none
  else if startsWith ("editions[".data) line then none
  else
    let parts := splitQuoted line
    if parts.length ≥ 4 then
      some ⟨parts.getD 0 [], parts.getD 1 [], parts.getD 2 [], parts.getD 3 [],
            parts.getD 4 [], parts.getD 5 []⟩
    else none

/-- `parse_editions_toon`. -/
def parse_editions_toon (lines : List Str) : List EditionMeta :=
  lines.filterMap parseEditionsLine

/-- `EDITIONS_PER_CHUNK`. -/
def EDITIONS_PER_CHUNK : Nat := 45

/-- `num_chunks = (len(editions) + EDITIONS_PER_CHUNK - 1) // EDITIONS_PER_CHUNK`. -/
def numChunks (n : Nat) : Nat := (n + EDITIONS_PER_CHUNK - 1) / EDITIONS_PER_CHUNK

/-- `editions[start_idx:end_idx]` for 0-based chunk index `t`
(`chunk_id = t + 1`, `start_idx = t * 45`, `end_idx = min((t+1) * 45, N)`). -/
def chunkSlice (eds : List EditionMeta) (t : Nat) : List EditionMeta :=
  (eds.drop (t * EDITIONS_PER_CHUNK)).take
    (min ((t + 1) * EDITIONS_PER_CHUNK) eds.length - t * EDITIONS_PER_CHUNK)

/-- One row of the `editions` table of `editions/index.db`.  All TEXT
columns are nullable; the code always binds Python `str` values, i.e.
`some` values, for them. -/
structure EditionRow where
  id : Nat
  slug : Str
  author : Option Str
  language : Option Str
  direction : Option Str
  source : Option Str
  note : Option Str
  chunk_id : Nat
deriving DecidableEq

/-- The index row inserted for global id `gid` in chunk `c` (1-based). -/
def mkIndexRow (gid : Nat) (ed : EditionMeta) (c : Nat) : EditionRow :=
  ⟨gid, ed.id, some ed.author, some ed.language, some ed.direction,
   some ed.source, some ed.note, c⟩

/-- One row of a shard's `translations` table. -/
structure TransRow where
  edition_id : Nat
  surah : Nat
  ayah : Nat
  text : Str
deriving DecidableEq

/-- The translation rows one edition contributes to its shard:
`if not toon_file.exists(): continue` makes a missing document contribute
nothing (the `if ayahs:` guard only skips an empty transaction and does not
change the row set). -/
def transRowsOf (files : Str → Option (List Str)) (gid : Nat) (ed : EditionMeta) :
    List TransRow :=
  match files ed.id with
  | none => []
  | some ls => (parse_edition_toon_file ls).map fun r => ⟨gid, r.1, r.2.1, r.2.2⟩

/-- The `editions` rows of `index.db`, in insertion order: the chunk loop
runs `chunk_id` from `1` to `num_chunks` and the edition loop assigns
`edition_id = start_idx + i + 1`. -/
def create_editions_index (eds : List EditionMeta) : List EditionRow :=
  (List.range (numChunks eds.length)).flatMap fun t =>
    enumRows (fun gid ed => [mkIndexRow gid ed (t + 1)])
      (t * EDITIONS_PER_CHUNK + 1) (chunkSlice eds t)

/-- The `translations` row sets of the shard artifacts
`chunk_1.db .. chunk_{num_chunks}.db`, in chunk order. -/
def create_editions_shards (eds : List EditionMeta)
    (files : Str → Option (List Str)) : List (List TransRow) :=
  (List.range (numChunks eds.length)).map fun t =>
    enumRows (transRowsOf files) (t * EDITIONS_PER_CHUNK + 1) (chunkSlice eds t)

example : parse_editions_toon (["eng-sahih,Sahih International,en,ltr,web,\"a, note\"".data]) =
    [⟨"eng-sahih".data, "Sahih International".data, "en".data, "ltr".data,
      "web".data, "a, note".data⟩] := rfl
example : parse_editions_toon (["a,b,c".data]) = [] := rfl

/-! ## Tajweed: `parse_tajweed_toon` -/

/-- One row of the `rules` table of `tajweed.db`. -/
structure TajweedRec where
  surah : Int
  ayah : Int
  start_pos : Int
  end_pos : Int
  rule_type : Str
deriving DecidableEq

/-- ASCII approximation of `\w`. -/
def isWordChar (c : Char) : Bool := c.isAlphanum || c = '_'

/-- `re.match(r'\s+\d+,\d+,\w+', line)`. -/
def matchesRuleLead (line : Str) : Bool :=
  let r1 := line.dropWhile isPySpace
  let d1 := r1.takeWhile Char.isDigit
  let r2 := r1.dropWhile Char.isDigit
  line.takeWhile isPySpace ≠ [] && d1 ≠ [] && r2.head? == some ',' &&
    (let r3 := r2.tail
     let d2 := r3.takeWhile Char.isDigit
     let r4 := r3.dropWhile Char.isDigit
     d2 ≠ [] && r4.head? == some ',' &&
       (match r4.tail.head? with
        | some c => isWordChar c
        | none => false))

/-- The loop state of `parse_tajweed_toon` (`rules`, `current_ayah`,
`surah`; `surah` starts at `0`). -/
structure TajweedState where
  rules : List TajweedRec
  current : Option (Int × Int)
  surah : Int
deriving DecidableEq

/-- One iteration of the `parse_tajweed_toon` line loop.  The `- c:` and
`v:` branches call `int(...)` unguarded, so a non-numeric payload aborts
the run.  On a rule line the shape regex has already forced the first two
comma fields to be digit runs, so their coercions always succeed. -/
def tajweedStep (st : TajweedState) (raw : Str) : Except Unit TajweedState :=
  let line := rstrip raw
  let ls := pyStrip line
  if startsWith ("- c:".data) ls then
    match pyInt ((pySplit ':' line).getD 1 []) with
    | none => .error ()
    | some n => .ok { st with surah := n }
  else if startsWith ("v:".data) ls then
    match pyInt ((pySplit ':' line).getD 1 []) with
    | none => .error ()
    | some a => .ok { st with current := some (st.surah, a) }
  else if startsWith ("rules[".data) ls then
    .ok st
  else if st.current.isSome && matchesRuleLead line then
    match st.current with
    | some ca =>
      let parts := pySplit ',' (pyStrip line)
      if parts.length ≥ 3 then
        match pyInt (parts.getD 0 []), pyInt (parts.getD 1 []) with
        | some s0, some e1 =>
          .ok { st with rules := st.rules ++ [⟨ca.1, ca.2, s0, e1, parts.getD 2 []⟩] }
        | _, _ => .error ()
      else .ok st
    | none => .ok st
  else .ok st

/-- `parse_tajweed_toon`. -/
def parse_tajweed_toon (lines : List Str) : Except Unit (List TajweedRec) := do
  let st ← lines.foldlM tajweedStep ⟨[], none, 0⟩
  return st.rules

example :
    parse_tajweed_toon (["- c: 1".data, "v: 2".data, "  3,7,ghunnah".data]) =
    .ok [⟨1, 2, 3, 7, "ghunnah".data⟩] := rfl
example : parse_tajweed_toon (["- c: x".data]) = .error () := rfl
example : parse_tajweed_toon (["  3,7,ghunnah".data]) = .ok [] := rfl

/-! ## Glyphs, mutashabihat, recitations -/

/-- One row of the `glyphs` table of `tajweed_glyphs.db`. -/
structure GlyphRec where
  page : Int
  surah : Nat
  ayah : Nat
  glyphs : Str
deriving DecidableEq

/-- Split `cs` at its last `'"'`: `some g` with `cs = g ++ '"' :: tail`,
`'"' ∉ tail`, `g ≠ []`.  This is how the greedy `(.+)"` of the glyph regex
matches (input lines contain no newline, so the `.`-excludes-newline rule
never bites). -/
def lastQuoteSplit (cs : Str) : Option Str :=
  match cs.reverse.dropWhile (fun c => !(c = '"')) with
  | '"' :: rest => if rest = [] then none else some rest.reverse
  | _ => none

/-- One line of a `tajweed_glyphs/*.toon` page file:
`re.match(r'(\d+),(\d+),"(.+)"', line)` on the stripped line. -/
def parseGlyphLine (raw : Str) : Option (Nat × Nat × Str) :=
  let line := pyStrip raw
  if line = [] then none
  else if startsWith ("glyphs[".data) line then none
  else
    let d1 := line.takeWhile Char.isDigit
    if d1 = [] then none
    else
      match line.dropWhile Char.isDigit with
      | ',' :: r2 =>
        let d2 := r2.takeWhile Char.isDigit
        if d2 = [] then none
        else
          match r2.dropWhile Char.isDigit with
          | ',' :: '"' :: r3 =>
            match lastQuoteSplit r3 with
            | some g => some (digitsToNat d1, digitsToNat d2, g)
            | none => none
          | _ => none
      | _ => none

/-- `parse_tajweed_glyphs`, over the sorted page files (stem, lines): a
file whose stem fails `int()` is skipped whole (`except ValueError:
continue`). -/
def parse_tajweed_glyphs (pages : List (Str × List Str)) : List GlyphRec :=
  pages.flatMap fun pg =>
    match pyInt pg.1 with
    | none => []
    | some pnum =>
      pg.2.filterMap fun l => (parseGlyphLine l).map fun r => ⟨pnum, r.1, r.2.1, r.2.2⟩

/-- One row of the `similarities` table of `mutashabihat.db`. -/
structure SimRec where
  id : Nat
  source : Str
  refs : Str
deriving DecidableEq

/-- One line of `mutashabihat/data.toon`:
`re.match(r'"(\d+)","([^"]+)","([^"]+)"', line)` on the stripped line. -/
def parseMutashLine (raw : Str) : Option SimRec :=
  let line := pyStrip raw
  if line = [] then none
  else if startsWith ("[".data) line then none
  else
    match line with
    | '"' :: r1 =>
      let d1 := r1.takeWhile Char.isDigit
      if d1 = [] then none
      else
        match r1.dropWhile Char.isDigit with
        | '"' :: ',' :: '"' :: r3 =>
          let f2 := r3.takeWhile (fun c => !(c = '"'))
          if f2 = [] then none
          else
            match r3.dropWhile (fun c => !(c = '"')) with
            | '"' :: ',' :: '"' :: r5 =>
              let f3 := r5.takeWhile (fun c => !(c = '"'))
              if f3 = [] then none
              else
                match r5.dropWhile (fun c => !(c = '"')) with
                | '"' :: _ => some ⟨digitsToNat d1, f2, f3⟩
                | _ => none
            | _ => none
        | _ => none
    | _ => none

/-- `parse_mutashabihat_toon`. -/
def parse_mutashabihat_toon (lines : List Str) : List SimRec :=
  lines.filterMap parseMutashLine

/-- One row of the `reciters` table of `recitations.db`; `style` is the
nullable column whose empty string the code maps to `None`
(`match.group(3) or None`). -/
structure ReciterRec where
  id : Nat
  name : Str
  style : Option Str
  verses : Nat
deriving DecidableEq

/-- One line of `recitations.toon`:
`re.match(r'(\d+),([^,]+),([^,]*),(\d+)', line)` on the stripped line. -/
def parseRecitationLine (raw : Str) : Option ReciterRec :=
  let line := pyStrip raw
  if line = [] then none
  else if startsWith ("meta:".data) line then none
  else if startsWith ("reciters[".data) line then none
  else
    let d1 := line.takeWhile Char.isDigit
    if d1 = [] then none
    else
      match line.dropWhile Char.isDigit with
      | ',' :: r2 =>
        let f2 := r2.takeWhile (fun c => !(c = ','))
        if f2 = [] then none
        else
          match r2.dropWhile (fun c => !(c = ',')) with
          | ',' :: r4 =>
            let f3 := r4.takeWhile (fun c => !(c = ','))
            match r4.dropWhile (fun c => !(c = ',')) with
            | ',' :: r6 =>
              let d4 := r6.takeWhile Char.isDigit
              if d4 = [] then none
              else some ⟨digitsToNat d1, f2,
                         if f3 = [] then none else some f3, digitsToNat d4⟩
            | _ => none
          | _ => none
      | _ => none

/-- `parse_recitations_toon`. -/
def parse_recitations_toon (lines : List Str) : List ReciterRec :=
  lines.filterMap parseRecitationLine

example : parse_recitations_toon (["1,Alafasy,,6236".data]) =
    [⟨1, "Alafasy".data, none, 6236⟩] := rfl
example : parse_recitations_toon (["2,Husary,Mujawwad,6236".data]) =
    [⟨2, "Husary".data, some ("Mujawwad".data), 6236⟩] := rfl

/-! ## Tafsirs index: `create_tafsirs_index`

A pre-existing per-volume artifact is modelled by what the reconciler can
read out of it: its filename stem, its file size, the result of
`SELECT COUNT(*) FROM ayahs` (an error when the table is missing or the
file unreadable), and its `metadata` key/value table (an error when that
table is missing).  The whole volume body sits in one `try` whose `except`
prints a warning and continues, while each metadata key lookup has its own
inner `try`/`except` with a default. -/

instance {ε α : Type} [DecidableEq ε] [DecidableEq α] : DecidableEq (Except ε α) := fun a b => by
  cases a <;> cases b
  case error.error x y | ok.ok x y =>
    exact if h : x = y then isTrue (by rw [h]) else isFalse (by simpa using h)
  all_goals exact isFalse fun h => Except.noConfusion h

/-- A pre-existing per-volume tafsir artifact, as read by the reconciler. -/
structure Volume where
  stem : Str
  size : Nat
  ayahsCount : Except Unit Nat
  metadata : Except Unit (List (Str × Str))
deriving DecidableEq

/-- One best-effort metadata key lookup (`SELECT value FROM metadata WHERE
key = ?` inside `try`/`except`): a missing table and a missing key both
yield `none`. -/
def metaLookup (v : Volume) (key : Str) : Option Str :=
  match v.metadata with
  | .error _ => none
  | .ok tbl => tbl.lookup key

/-- One row of the `tafsirs` table of `tafsirs/db/index.db`. -/
structure TafsirRow where
  slug : Str
  name : Str
  author : Option Str
  language : Option Str
  source : Option Str
  ayah_count : Nat
  file_size_bytes : Nat
deriving DecidableEq

/-- The index row for one volume, or `none` when the row-count query threw
and the outer `except` skipped the volume. -/
def processVolume (v : Volume) : Option TafsirRow :=
  match v.ayahsCount with
  | .error _ => none
  | .ok cnt =>
    some ⟨v.stem, (metaLookup v ("name".data)).getD v.stem,
          metaLookup v ("author".data), metaLookup v ("language".data),
          metaLookup v ("source".data), cnt, v.size⟩

/-- The directory-scan filter: `f.name not in ('index.db', 'master.db')`. -/
def keepVolume (v : Volume) : Bool :=
  !(v.stem = "index".data) && !(v.stem = "master".data)

/-- The rows of `tafsirs/db/index.db`, in scan order. -/
def create_tafsirs_index (vols : List Volume) : List TafsirRow :=
  (vols.filter keepVolume).filterMap processVolume

/-! ## The pipeline driver -/

/-- Everything the pipeline reads: the source tree (one entry per toon
document, edition documents addressed by slug) and the pre-existing
per-volume tafsir artifacts found in the destination directory. -/
structure PipelineInput where
  quranLines : List Str
  infoLines : List Str
  editionsLines : List Str
  editionFiles : Str → Option (List Str)
  tajweedLines : List Str
  glyphPages : List (Str × List Str)
  mutashabihatLines : List Str
  recitationsLines : List Str
  tafsirVolumes : List Volume

/-- The row sets of every artifact the pipeline writes. -/
structure PipelineOutput where
  quranRows : List (Nat × Nat × Str)
  surahRows : List SurahRow
  verseInfoRows : List VerseRow
  editionIndexRows : List EditionRow
  shardRows : List (List TransRow)
  tajweedRows : List TajweedRec
  glyphRows : List GlyphRec
  similarityRows : List SimRec
  reciterRows : List ReciterRec
  tafsirRows : List TafsirRow
deriving DecidableEq

/-- `main`: build every domain in order; every artifact is deleted and
rebuilt from scratch (`init_db` unlinks any pre-existing file), so the row
sets are exactly the function of the input computed here.  An uncaught
exception anywhere (the unguarded coercions above) aborts the run. -/
def runPipeline (inp : PipelineInput) : Except Unit PipelineOutput := do
  let surahs ← parse_info_toon inp.infoLines
  let (srows, vrows) ← create_info_rows surahs
  let eds := parse_editions_toon inp.editionsLines
  let tj ← parse_tajweed_toon inp.tajweedLines
  return ⟨parse_quran_toon inp.quranLines, srows, vrows,
          create_editions_index eds, create_editions_shards eds inp.editionFiles,
          tj, parse_tajweed_glyphs inp.glyphPages,
          parse_mutashabihat_toon inp.mutashabihatLines,
          parse_recitations_toon inp.recitationsLines,
          create_tafsirs_index inp.tafsirVolumes⟩

/-! ## Helper lemmas -/

theorem not_space_of_digit {c : Char} (h : c.isDigit = true) : isPySpace c = false := by
  unfold Char.isDigit at h
  simp only [Bool.and_eq_true, decide_eq_true_eq] at h
  obtain ⟨h1, h2⟩ := h
  unfold isPySpace
  simp only [Bool.or_eq_false_iff, decide_eq_false_iff_not]
  refine ⟨⟨⟨⟨⟨?_, ?_⟩, ?_⟩, ?_⟩, ?_⟩, ?_⟩ <;> rintro rfl <;> exact absurd h1 (by decide)

theorem takeWhile_all_append {p : α → Bool} {xs : List α} (hxs : ∀ a ∈ xs, p a = true)
    {y : α} (hy : p y = false) (ys : List α) :
    (xs ++ y :: ys).takeWhile p = xs := by
  induction xs with
  | nil => simp [List.takeWhile_cons, hy]
  | cons a as ih =>
    have ha : p a = true := hxs a (by simp)
    simp only [List.cons_append, List.takeWhile_cons, ha, if_true]
    rw [ih (fun b hb => hxs b (by simp [hb]))]

theorem dropWhile_all_append {p : α → Bool} {xs : List α} (hxs : ∀ a ∈ xs, p a = true)
    {y : α} (hy : p y = false) (ys : List α) :
    (xs ++ y :: ys).dropWhile p = y :: ys := by
  induction xs with
  | nil => simp [List.dropWhile_cons, hy]
  | cons a as ih =>
    have ha : p a = true := hxs a (by simp)
    simp only [List.cons_append, List.dropWhile_cons, ha, if_true]
    exact ih (fun b hb => hxs b (by simp [hb]))

theorem lstrip_eq_self {s : Str} (h : ∀ c, s.head? = some c → isPySpace c = false) :
    lstrip s = s := by
  cases s with
  | nil => rfl
  | cons a t =>
    unfold lstrip
    rw [List.dropWhile_cons_of_neg]
    simp [h a rfl]

theorem rstrip_eq_self {s : Str} (h : ∀ c, s.getLast? = some c → isPySpace c = false) :
    rstrip s = s := by
  unfold rstrip
  rcases hs : s.reverse with _ | ⟨b, u⟩
  · simpa using congrArg List.reverse hs
  · have hb : s.getLast? = some b := by
      rw [← List.head?_reverse, hs]; rfl
    rw [List.dropWhile_cons_of_neg (by simp [h b hb]), ← hs, List.reverse_reverse]

theorem pyStrip_eq_self {s : Str} (h1 : ∀ c, s.head? = some c → isPySpace c = false)
    (h2 : ∀ c, s.getLast? = some c → isPySpace c = false) :
    pyStrip s = s := by
  unfold pyStrip
  rw [lstrip_eq_self h1, rstrip_eq_self h2]

theorem getLast?_mem_of_eq {s : List α} {a : α} (h : s.getLast? = some a) : a ∈ s := by
  induction s with
  | nil => simp at h
  | cons b t ih =>
    cases t with
    | nil => simp at h; simp [h]
    | cons c u =>
      rw [List.getLast?_cons_cons] at h
      exact List.mem_cons_of_mem b (ih h)

/-- Digit strings survive `strip` untouched. -/
theorem pyStrip_digits {d : Str} (hd : ∀ c ∈ d, c.isDigit = true) : pyStrip d = d := by
  apply pyStrip_eq_self
  · intro c hc
    cases d with
    | nil => simp at hc
    | cons a t =>
      simp only [List.head?_cons, Option.some.injEq] at hc
      exact not_space_of_digit (hd c (hc ▸ List.mem_cons_self a t))
  · intro c hc
    exact not_space_of_digit (hd c (getLast?_mem_of_eq hc))

/-- `int()` succeeds on a nonempty digit string and returns its value. -/
theorem pyInt_digits {d : Str} (hne : d ≠ []) (hd : ∀ c ∈ d, c.isDigit = true) :
    pyInt d = some (digitsToNat d : Int) := by
  unfold pyInt
  rw [pyStrip_digits hd]
  cases d with
  | nil => exact absurd rfl hne
  | cons c rest =>
    have hc : c.isDigit = true := hd c (List.mem_cons_self c rest)
    have hcm : c ≠ '-' := by rintro rfl; exact absurd hc (by decide)
    have hcp : c ≠ '+' := by rintro rfl; exact absurd hc (by decide)
    show pyIntCore (c :: rest) = some (digitsToNat (c :: rest) : Int)
    rw [pyIntCore, if_neg hcm, if_neg hcp, if_pos]
    rw [List.all_eq_true]
    intro x hx
    exact hd x hx

/-- A well-formed flat-tuple line `<digits>,<digits>,"<text>"` parses to
exactly its three components, with the one layer of wrapping quotes
stripped and `<text>` (commas included) returned verbatim. -/
theorem parseFlatLine_wellformed (d1 d2 text : Str)
    (h1 : d1 ≠ []) (h1d : ∀ c ∈ d1, c.isDigit = true)
    (h2 : d2 ≠ []) (h2d : ∀ c ∈ d2, c.isDigit = true)
    (hn : ∀ c ∈ text, c ≠ '\n') :
    parseFlatLine (d1 ++ ',' :: (d2 ++ ',' :: '"' :: (text ++ ['"']))) =
      some (digitsToNat d1, digitsToNat d2, text) := by
  obtain ⟨c, d1t, rfl⟩ : ∃ c t, d1 = c :: t := by
    cases d1 with
    | nil => exact absurd rfl h1
    | cons a t => exact ⟨a, t, rfl⟩
  have hc : c.isDigit = true := h1d c (List.mem_cons_self c d1t)
  set rest3 : Str := '"' :: (text ++ ['"']) with hrest3
  set R2 : Str := d2 ++ ',' :: rest3 with hR2
  set line : Str := (c :: d1t) ++ ',' :: R2 with hline
  have hassoc : line = ((c :: d1t) ++ ',' :: d2 ++ ',' :: '"' :: text) ++ ['"'] := by
    simp [hline, hR2, hrest3]
  have hlast : line.getLast? = some '"' := by
    rw [hassoc]; exact List.getLast?_concat _
  have hstrip : pyStrip line = line := by
    apply pyStrip_eq_self
    · intro x hx
      simp only [hline, List.cons_append, List.head?_cons, Option.some.injEq] at hx
      exact hx ▸ not_space_of_digit hc
    · intro x hx
      rw [hlast] at hx
      cases hx
      decide
  have hnq : c ≠ 'q' := by
    rintro rfl
    exact absurd hc (by decide)
  have htake1 : line.takeWhile Char.isDigit = c :: d1t :=
    takeWhile_all_append h1d (by decide) _
  have hdrop1 : line.dropWhile Char.isDigit = ',' :: R2 :=
    dropWhile_all_append h1d (by decide) _
  have htake2 : R2.takeWhile Char.isDigit = d2 :=
    takeWhile_all_append h2d (by decide) _
  have hdrop2 : R2.dropWhile Char.isDigit = ',' :: rest3 :=
    dropWhile_all_append h2d (by decide) _
  have hall3 : (rest3.all fun x => !decide (x = '\n')) = true := by
    rw [hrest3]
    simp only [List.all_cons, List.all_append, Bool.and_eq_true]
    refine ⟨by decide, ?_, by decide⟩
    rw [List.all_eq_true]
    intro x hx
    simpa using hn x hx
  have hmatch : matchFlatTuple line = some (digitsToNat (c :: d1t), digitsToNat d2, rest3) := by
    rw [matchFlatTuple]
    rw [lstrip_eq_self (fun x hx => by
      simp only [hline, List.cons_append, List.head?_cons, Option.some.injEq] at hx
      exact hx ▸ not_space_of_digit hc)]
    simp only [htake1, hdrop1, htake2, hdrop2]
    rw [if_neg (show ¬(c :: d1t = []) from by simp)]
    simp only [if_neg h2]
    rw [if_pos ⟨by simp [hrest3], hall3⟩]
  have hstrip3 : pyStrip rest3 = rest3 := by
    apply pyStrip_eq_self
    · intro x hx
      simp only [hrest3, List.head?_cons, Option.some.injEq] at hx
      cases hx; decide
    · intro x hx
      have : rest3.getLast? = some '"' := by
        rw [hrest3, ← List.cons_append]
        exact List.getLast?_concat _
      rw [this] at hx
      cases hx; decide
  have hlast3 : rest3.getLast? = some '"' := by
    rw [hrest3, ← List.cons_append]
    exact List.getLast?_concat _
  rw [parseFlatLine]
  simp only [← hline, hstrip]
  rw [if_neg (by simp [hline])]
  rw [if_neg (by
    simp only [startsWith, hline, List.cons_append]
    show ¬ (List.isPrefixOf _ _ = true)
    rw [List.isPrefixOf]
    simp [hnq.symm])]
  rw [hmatch]
  simp only [hstrip3, hlast3, List.head?_cons, Option.some.injEq, and_true, if_pos rfl]
  rw [hrest3]
  simp [List.dropLast_concat]

/-- C2: a flat-tuple line `<s>,<a>,"<text>"` (s, a decimal digit strings,
`<text>` newline-free but otherwise arbitrary — commas included) is read by
both flat-tuple readers as exactly the record (s, a, text), quotes
stripped, text verbatim. -/
theorem C2_flat_tuple_reader (d1 d2 text : Str)
    (h1 : d1 ≠ []) (h1d : ∀ c ∈ d1, c.isDigit = true)
    (h2 : d2 ≠ []) (h2d : ∀ c ∈ d2, c.isDigit = true)
    (hn : ∀ c ∈ text, c ≠ '\n') :
    parse_quran_toon [d1 ++ ',' :: (d2 ++ ',' :: '"' :: (text ++ ['"']))] =
      [(digitsToNat d1, digitsToNat d2, text)] ∧
    parse_edition_toon_file [d1 ++ ',' :: (d2 ++ ',' :: '"' :: (text ++ ['"']))] =
      [(digitsToNat d1, digitsToNat d2, text)] := by
  have h := parseFlatLine_wellformed d1 d2 text h1 h1d h2 h2d hn
  constructor
  · rw [parse_quran_toon, List.filterMap_cons, h]; rfl
  · rw [parse_edition_toon_file, List.filterMap_cons, h]; rfl

/-- C2 witness: the spec's own example line
`1,1,"In the name of Allah"`, plus an embedded comma. -/
theorem C2_flat_tuple_reader_witness :
    parse_quran_toon
        [("1".data ++ ',' :: ("1".data ++ ',' :: '"' ::
          ("In the name of Allah".data ++ ['"'])))] =
      [(digitsToNat ("1".data), digitsToNat ("1".data), "In the name of Allah".data)] ∧
    parse_edition_toon_file
        [("1".data ++ ',' :: ("1".data ++ ',' :: '"' ::
          ("In the name of Allah".data ++ ['"'])))] =
      [(digitsToNat ("1".data), digitsToNat ("1".data), "In the name of Allah".data)] :=
  C2_flat_tuple_reader ("1".data) ("1".data) ("In the name of Allah".data)
    (by decide) (by decide) (by decide) (by decide) (by decide)

/-- C4: the nested-block reader flushes at end of stream: whenever the line
loop finishes with a pending aggregate (`current_surah` truthy),
`parse_info_toon` still yields that record, appended last; and whenever a
new block-start marker `- chapter:` with a numeric payload is read, the
pending aggregate is flushed to the output list at that step. -/
theorem C4_end_of_stream_flush (lines : List Str) (st : InfoState) (p : PartialSurah)
    (hrun : List.foldlM infoStep initInfoState lines = Except.ok st)
    (hp : st.current = some p) :
    parse_info_toon lines = .ok (st.surahs ++ [finishSurah p st.verses]) ∧
    (∀ raw n,
       startsWith ("- chapter:".data) (pyStrip (rstrip raw)) = true →
       pyInt ((pySplit ':' (rstrip raw)).getD 1 []) = some n →
       infoStep st raw = .ok
         ⟨st.surahs ++ [finishSurah p st.verses],
          some { emptyPartial with chapter := some n }, [], false⟩) := by
  constructor
  · rw [parse_info_toon]
    rw [hrun]
    simp [hp]
  · intro raw n hstart hint
    rw [infoStep]
    simp only [hstart, if_true, hint, hp]

/-- C4 witness: a two-line stream ending inside a chapter block (no
trailing separator) still yields the pending record; a follow-up
`- chapter:` marker flushes it. -/
theorem C4_end_of_stream_flush_witness :
    parse_info_toon ["- chapter: 1".data, "name: A".data] =
      .ok [⟨some 1, some ("A".data), none, none, none, []⟩] ∧
    infoStep ⟨[], some ⟨some 1, some ("A".data), none, none, none⟩, [], false⟩
        ("- chapter: 2".data) =
      .ok ⟨[⟨some 1, some ("A".data), none, none, none, []⟩],
           some { emptyPartial with chapter := some 2 }, [], false⟩ := by
  have h := C4_end_of_stream_flush ["- chapter: 1".data, "name: A".data]
    ⟨[], some ⟨some 1, some ("A".data), none, none, none⟩, [], false⟩
    ⟨some 1, some ("A".data), none, none, none⟩ (by rfl) (by rfl)
  exact ⟨h.1, by simpa using h.2 ("- chapter: 2".data) 2 (by rfl) (by rfl)⟩

theorem not_space_of_word {c : Char} (h : isWordChar c = true) : isPySpace c = false := by
  unfold isWordChar Char.isAlphanum Char.isAlpha Char.isUpper Char.isLower Char.isDigit at h
  simp only [Bool.or_eq_true, Bool.and_eq_true, decide_eq_true_eq] at h
  unfold isPySpace
  simp only [Bool.or_eq_false_iff, decide_eq_false_iff_not]
  refine ⟨⟨⟨⟨⟨?_, ?_⟩, ?_⟩, ?_⟩, ?_⟩, ?_⟩ <;> rintro rfl <;>
    rcases h with ((⟨h1, h2⟩ | ⟨h1, h2⟩) | ⟨h1, h2⟩) | h1 <;>
    exact absurd h1 (by decide)

theorem dropWhile_append_of_ne_nil {p : α → Bool} {as : List α}
    (h : as.dropWhile p ≠ []) (bs : List α) :
    (as ++ bs).dropWhile p = as.dropWhile p ++ bs := by
  induction as with
  | nil => exact absurd rfl h
  | cons a t ih =>
    by_cases hp : p a = true
    · have h2 : t.dropWhile p ≠ [] := by rwa [List.dropWhile_cons_of_pos hp] at h
      rw [List.cons_append, List.dropWhile_cons_of_pos hp, List.dropWhile_cons_of_pos hp]
      exact ih h2
    · rw [List.cons_append, List.dropWhile_cons_of_neg hp, List.dropWhile_cons_of_neg hp]
      rfl

theorem rstrip_append {xs ys : Str} (h : rstrip ys ≠ []) :
    rstrip (xs ++ ys) = xs ++ rstrip ys := by
  have hrev : ys.reverse.dropWhile isPySpace ≠ [] := by
    intro hc
    apply h
    unfold rstrip
    rw [hc]
    rfl
  unfold rstrip
  rw [List.reverse_append, dropWhile_append_of_ne_nil hrev, List.reverse_append,
    List.reverse_reverse]

theorem rstrip_cons_ne_nil {w : Char} (hw : isPySpace w = false) (t : Str) :
    rstrip (w :: t) ≠ [] := by
  intro hc
  unfold rstrip at hc
  have : (w :: t).reverse.dropWhile isPySpace = [] := by
    have := congrArg List.reverse hc
    simpa using this
  rw [List.dropWhile_eq_nil_iff] at this
  have hw2 := this w (by simp)
  rw [hw] at hw2
  exact Bool.false_ne_true hw2

theorem pySplit_ne_nil (sep : Char) (l : Str) : pySplit sep l ≠ [] := by
  cases l with
  | nil => simp [pySplit]
  | cons c cs =>
    rw [pySplit]
    by_cases h : c = sep
    · simp [h]
    · rw [if_neg h]
      rcases hs : pySplit sep cs with _ | ⟨p, ps⟩ <;> simp

theorem pySplit_append_free {sep : Char} {xs : Str} (h : ∀ c ∈ xs, ¬(c = sep))
    (ys : Str) : pySplit sep (xs ++ sep :: ys) = xs :: pySplit sep ys := by
  induction xs with
  | nil =>
    rw [List.nil_append, pySplit, if_pos rfl]
  | cons a t ih =>
    rw [List.cons_append, pySplit, if_neg (h a (by simp)),
      ih (fun c hc => h c (by simp [hc]))]

theorem mem_takeWhile_pred {p : α → Bool} {l : List α} {a : α}
    (h : a ∈ l.takeWhile p) : p a = true := by
  induction l with
  | nil => simp at h
  | cons b t ih =>
    rw [List.takeWhile_cons] at h
    by_cases hb : p b = true
    · rw [if_pos hb] at h
      rcases List.mem_cons.mp h with rfl | hm
      · exact hb
      · exact ih hm
    · rw [if_neg hb] at h
      simp at h

/-- What the rule-line shape regex `\s+\d+,\d+,\w+` guarantees about the
comma split of the stripped line: the first two fields are nonempty digit
runs. -/
theorem ruleLead_parts {line : Str} (h : matchesRuleLead line = true) :
    ∃ d1 d2 rest, pySplit ',' (pyStrip line) = d1 :: d2 :: rest ∧
      d1 ≠ [] ∧ d2 ≠ [] ∧ rest ≠ [] ∧
      (∀ c ∈ d1, c.isDigit = true) ∧ (∀ c ∈ d2, c.isDigit = true) := by
  unfold matchesRuleLead at h
  simp only [Bool.and_eq_true, decide_eq_true_eq, beq_iff_eq] at h
  obtain ⟨⟨⟨hsp, hd1⟩, hr2⟩, hrest⟩ := h
  obtain ⟨r3, hr3⟩ : ∃ r3,
      (line.dropWhile isPySpace).dropWhile Char.isDigit = ',' :: r3 := by
    rcases hx : (line.dropWhile isPySpace).dropWhile Char.isDigit with _ | ⟨y, ys⟩
    · rw [hx] at hr2; simp at hr2
    · rw [hx] at hr2
      simp only [List.head?_cons, Option.some.injEq] at hr2
      exact ⟨ys, by rw [hr2]⟩
  rw [hr3] at hrest
  simp only [List.tail_cons, Bool.and_eq_true, decide_eq_true_eq, beq_iff_eq] at hrest
  obtain ⟨⟨hd2, hr4⟩, hw⟩ := hrest
  obtain ⟨t4, ht4⟩ : ∃ t4, r3.dropWhile Char.isDigit = ',' :: t4 := by
    rcases hx : r3.dropWhile Char.isDigit with _ | ⟨y, ys⟩
    · rw [hx] at hr4; simp at hr4
    · rw [hx] at hr4
      simp only [List.head?_cons, Option.some.injEq] at hr4
      exact ⟨ys, by rw [hr4]⟩
  rw [ht4] at hw
  obtain ⟨w, t5, rfl, hww⟩ : ∃ w t5, t4 = w :: t5 ∧ isWordChar w = true := by
    rcases t4 with _ | ⟨w, t5⟩
    · simp at hw
    · simp only [List.tail_cons, List.head?_cons] at hw
      exact ⟨w, t5, rfl, hw⟩
  set r1 := line.dropWhile isPySpace with hr1def
  set d1 := r1.takeWhile Char.isDigit with hd1def
  set d2 := r3.takeWhile Char.isDigit with hd2def
  have hall1 : ∀ c ∈ d1, c.isDigit = true := fun c hc => mem_takeWhile_pred hc
  have hall2 : ∀ c ∈ d2, c.isDigit = true := fun c hc => mem_takeWhile_pred hc
  have hfree1 : ∀ c ∈ d1, ¬(c = ',') := by
    intro c hc hcc
    have := hall1 c hc
    rw [hcc] at this
    exact absurd this (by decide)
  have hfree2 : ∀ c ∈ d2, ¬(c = ',') := by
    intro c hc hcc
    have := hall2 c hc
    rw [hcc] at this
    exact absurd this (by decide)
  have hr1eq : r1 = d1 ++ ',' :: r3 := by
    conv_lhs => rw [← List.takeWhile_append_dropWhile (p := Char.isDigit) (l := r1)]
    rw [hr3]
  have hr3eq : r3 = d2 ++ ',' :: w :: t5 := by
    conv_lhs => rw [← List.takeWhile_append_dropWhile (p := Char.isDigit) (l := r3)]
    rw [ht4]
  have hWne : rstrip (w :: t5) ≠ [] := rstrip_cons_ne_nil (not_space_of_word hww) t5
  have hstrip : pyStrip line = d1 ++ ',' :: (d2 ++ ',' :: rstrip (w :: t5)) := by
    show rstrip (lstrip line) = _
    have hl : lstrip line = r1 := rfl
    rw [hl, hr1eq, hr3eq]
    have hshape : d1 ++ ',' :: (d2 ++ ',' :: w :: t5) =
        (d1 ++ ',' :: d2 ++ [',']) ++ (w :: t5) := by simp
    rw [hshape, rstrip_append hWne]
    simp
  refine ⟨d1, d2, pySplit ',' (rstrip (w :: t5)), ?_, hd1, hd2,
    pySplit_ne_nil ',' _, hall1, hall2⟩
  rw [hstrip, pySplit_append_free hfree1, pySplit_append_free hfree2]

/-- C7 counterexample: a non-numeric token after a key–value header
(`- chapter:` in `parse_info_toon`, `- c:` in `parse_tajweed_toon`)
reaches an unguarded `int(...)` and aborts the whole run — later good
records in the same stream are lost, instead of only the bad record being
skipped. -/
theorem C7_coercion_abort_counterexample :
    parse_info_toon ["- chapter: x".data, "- chapter: 2".data] = .error () ∧
    parse_tajweed_toon ["- c: y".data, "- c: 1".data] = .error () := by
  exact ⟨rfl, rfl⟩

/-- C7 amended: only regex-guarded tuple lines enjoy the skip-and-continue
policy.  In `parse_tajweed_toon`, any line that is not a `- c:`/`v:`
key–value header can never abort the run — if the rule regex matches, its
digit-guarded fields make both `int()` coercions succeed, and otherwise the
line is skipped with the state unchanged — whereas header-line coercion
failures abort (see the counterexample). -/
theorem C7_guarded_lines_never_abort (st : TajweedState) (raw : Str)
    (hc : startsWith ("- c:".data) (pyStrip (rstrip raw)) = false)
    (hv : startsWith ("v:".data) (pyStrip (rstrip raw)) = false) :
    (∃ st2, tajweedStep st raw = Except.ok st2) ∧
    (matchesRuleLead (rstrip raw) = false →
     startsWith ("rules[".data) (pyStrip (rstrip raw)) = false →
     tajweedStep st raw = Except.ok st) := by
  constructor
  · by_cases hr : startsWith ("rules[".data) (pyStrip (rstrip raw)) = true
    · exact ⟨st, by rw [tajweedStep]; simp [hc, hv, hr]⟩
    · have hrf : startsWith ("rules[".data) (pyStrip (rstrip raw)) = false := by
        simpa using hr
      by_cases hm : matchesRuleLead (rstrip raw) = true
      · rcases hcur : st.current with _ | ca
        · exact ⟨st, by rw [tajweedStep]; simp [hc, hv, hrf, hcur]⟩
        · obtain ⟨d1, d2, rest, hsplit, hne1, hne2, hrne, hall1, hall2⟩ := ruleLead_parts hm
          have hlen : 3 ≤ (pySplit ',' (pyStrip (rstrip raw))).length := by
            rw [hsplit]
            rcases rest with _ | ⟨x, xs⟩
            · exact absurd rfl hrne
            · simp
          refine ⟨{ st with rules := st.rules ++
            [⟨ca.1, ca.2, (digitsToNat d1 : Int), (digitsToNat d2 : Int),
              rest.getD 0 []⟩] }, ?_⟩
          rw [tajweedStep]
          simp [hc, hv, hrf, hcur, hm, hsplit, hlen, List.getD,
            pyInt_digits hne1 hall1, pyInt_digits hne2 hall2]
          exact fun h => absurd h hrne
      · have hmf : matchesRuleLead (rstrip raw) = false := by simpa using hm
        exact ⟨st, by rw [tajweedStep]; simp [hc, hv, hrf, hmf]⟩
  · intro hmf hrf
    rw [tajweedStep]
    simp [hc, hv, hrf, hmf]

/-- C7 witness: a concrete well-formed rule line steps without error. -/
theorem C7_guarded_lines_never_abort_witness :
    (∃ st2, tajweedStep ⟨[], some (1, 2), 1⟩ ("  3,7,ghunnah".data) = Except.ok st2) ∧
    (matchesRuleLead (rstrip ("  3,7,ghunnah".data)) = false →
     startsWith ("rules[".data) (pyStrip (rstrip ("  3,7,ghunnah".data))) = false →
     tajweedStep ⟨[], some (1, 2), 1⟩ ("  3,7,ghunnah".data) =
       Except.ok ⟨[], some (1, 2), 1⟩) :=
  C7_guarded_lines_never_abort ⟨[], some (1, 2), 1⟩ ("  3,7,ghunnah".data)
    (by decide) (by decide)

theorem verse_rows_of_ok {s : SurahRec} {c : Int} (hc : s.chapter = some c) :
    verse_rows_of s = .ok (infoVerseRows s) := by
  rw [verse_rows_of]
  rcases hv : s.verses with _ | ⟨v, vs⟩
  · simp [infoVerseRows, hv]
  · rw [hc, infoVerseRows, hv, hc]
    rfl

theorem create_info_rows_eq {ss : List SurahRec}
    (hch : ∀ s ∈ ss, s.chapter.isSome = true) :
    create_info_rows ss = .ok (ss.map surah_row, ss.flatMap infoVerseRows) := by
  induction ss with
  | nil => rfl
  | cons s rest ih =>
    obtain ⟨c0, hc0⟩ := Option.isSome_iff_exists.mp (hch s (by simp))
    rw [create_info_rows]
    rw [verse_rows_of_ok hc0, ih (fun x hx => hch x (by simp [hx]))]
    rfl

theorem filter_infoVerseRows {s : SurahRec} {c c0 : Int} (hc0 : s.chapter = some c0) :
    (((infoVerseRows s).filter (fun v => v.surah == c)).length) =
      if c0 = c then s.verses.length else 0 := by
  rw [infoVerseRows, hc0]
  rw [← List.countP_eq_length_filter, List.countP_map]
  by_cases hcc : c0 = c
  · subst hcc
    simp [Function.comp]
  · simp [Function.comp, beq_iff_eq, hcc]

/-- C3: for every record, the `verse_count` written to the `surahs` table is
computed as the length of the parsed child verse list (the parsed record has
no input field it could be copied from), and it equals the number of
`verse_info` rows written with that surah id. -/
theorem C3_verse_count_derived (ss : List SurahRec) (srows : List SurahRow)
    (vrows : List VerseRow)
    (hch : ∀ s ∈ ss, s.chapter.isSome = true)
    (hnd : (ss.map SurahRec.chapter).Nodup)
    (hok : create_info_rows ss = .ok (srows, vrows)) :
    srows = ss.map surah_row ∧
    (∀ s ∈ ss, (surah_row s).verse_count = s.verses.length) ∧
    (∀ s ∈ ss, ∀ c, s.chapter = some c →
       (vrows.filter (fun v => v.surah == c)).length = (surah_row s).verse_count) := by
  rw [create_info_rows_eq hch] at hok
  obtain ⟨h1, h2⟩ : srows = ss.map surah_row ∧ vrows = ss.flatMap infoVerseRows := by
    have := hok
    simp only [Except.ok.injEq, Prod.mk.injEq] at this
    exact ⟨this.1.symm, this.2.symm⟩
  subst h1
  subst h2
  refine ⟨rfl, fun s _ => rfl, ?_⟩
  intro s hs c hc
  show ((ss.flatMap infoVerseRows).filter (fun v => v.surah == c)).length = s.verses.length
  clear hok
  induction ss with
  | nil => simp at hs
  | cons a rest ih =>
    have hndtail : (rest.map SurahRec.chapter).Nodup := by
      rw [List.map_cons, List.nodup_cons] at hnd
      exact hnd.2
    have hndhead : a.chapter ∉ rest.map SurahRec.chapter := by
      rw [List.map_cons, List.nodup_cons] at hnd
      exact hnd.1
    obtain ⟨ca, hca⟩ := Option.isSome_iff_exists.mp (hch a (by simp))
    rw [List.flatMap_cons, List.filter_append, List.length_append]
    rcases List.mem_cons.mp hs with heq | hmem
    · have hcac : ca = c := by
        rw [heq, hca] at hc
        exact Option.some.inj hc
      subst hcac
      rw [filter_infoVerseRows hca, if_pos rfl]
      have hzero :
          ((rest.flatMap infoVerseRows).filter (fun v => v.surah == ca)).length = 0 := by
        rw [List.length_eq_zero, List.filter_eq_nil_iff]
        intro v hv
        obtain ⟨s2, hs2, hvs2⟩ := List.mem_flatMap.mp hv
        obtain ⟨c2, hc2⟩ := Option.isSome_iff_exists.mp (hch s2 (by simp [hs2]))
        have hvsur : v.surah = c2 := by
          rw [infoVerseRows, hc2] at hvs2
          obtain ⟨v0, _, rfl⟩ := List.mem_map.mp hvs2
          rfl
        have hne : ¬(c2 = ca) := by
          rintro rfl
          exact hndhead
            (by rw [hca, ← hc2]; exact List.mem_map_of_mem SurahRec.chapter hs2)
        simp [hvsur, hne]
      rw [heq]
      omega
    · have hca_ne : ¬(ca = c) := by
        rintro rfl
        exact hndhead
          (by rw [hca, ← hc]; exact List.mem_map_of_mem SurahRec.chapter hmem)
      rw [filter_infoVerseRows hca, if_neg hca_ne]
      have := ih (fun x hx => hch x (by simp [hx])) hndtail hmem
      omega

/-- C3 witness: two chapters with two and one verse rows respectively. -/
theorem C3_verse_count_derived_witness :
    ([(⟨some 1, none, none, none, none,
        [⟨1, 1, 1, 1, 1, 1, 1, false⟩, ⟨2, 2, 1, 1, 1, 1, 1, false⟩]⟩ : SurahRec),
      ⟨some 2, none, none, none, none, [⟨1, 3, 1, 1, 2, 1, 1, true⟩]⟩].map surah_row =
      [⟨some 1, none, none, none, none, 2⟩, ⟨some 2, none, none, none, none, 1⟩]) ∧
    ((([(⟨some 1, none, none, none, none,
        [⟨1, 1, 1, 1, 1, 1, 1, false⟩, ⟨2, 2, 1, 1, 1, 1, 1, false⟩]⟩ : SurahRec),
      ⟨some 2, none, none, none, none, [⟨1, 3, 1, 1, 2, 1, 1, true⟩]⟩].flatMap
        infoVerseRows).filter (fun v => v.surah == 1)).length = 2) := by
  have h := C3_verse_count_derived
    [⟨some 1, none, none, none, none,
       [⟨1, 1, 1, 1, 1, 1, 1, false⟩, ⟨2, 2, 1, 1, 1, 1, 1, false⟩]⟩,
     ⟨some 2, none, none, none, none, [⟨1, 3, 1, 1, 2, 1, 1, true⟩]⟩]
    ([⟨some 1, none, none, none, none,
       [⟨1, 1, 1, 1, 1, 1, 1, false⟩, ⟨2, 2, 1, 1, 1, 1, 1, false⟩]⟩,
     ⟨some 2, none, none, none, none, [⟨1, 3, 1, 1, 2, 1, 1, true⟩]⟩].map surah_row)
    ([⟨some 1, none, none, none, none,
       [⟨1, 1, 1, 1, 1, 1, 1, false⟩, ⟨2, 2, 1, 1, 1, 1, 1, false⟩]⟩,
     ⟨some 2, none, none, none, none, [⟨1, 3, 1, 1, 2, 1, 1, true⟩]⟩].flatMap
       infoVerseRows)
    (by decide) (by decide) (by rw [create_info_rows_eq (by decide)])
  refine ⟨by decide, ?_⟩
  have h2 := h.2.2 ⟨some 1, none, none, none, none,
      [⟨1, 1, 1, 1, 1, 1, 1, false⟩, ⟨2, 2, 1, 1, 1, 1, 1, false⟩]⟩
    (by simp) 1 rfl
  simpa using h2

theorem enumRows_append (f : Nat → α → List β) (i : Nat) (xs ys : List α) :
    enumRows f i (xs ++ ys) = enumRows f i xs ++ enumRows f (i + xs.length) ys := by
  induction xs generalizing i with
  | nil => simp [enumRows]
  | cons x t ih =>
    rw [List.cons_append, enumRows, enumRows, ih (i + 1), List.append_assoc]
    have harith : i + 1 + t.length = i + (x :: t).length := by
      simp
      omega
    rw [harith]

theorem map_enumRows (h : β → γ) (f : Nat → α → List β) (i : Nat) (xs : List α) :
    (enumRows f i xs).map h = enumRows (fun g a => (f g a).map h) i xs := by
  induction xs generalizing i with
  | nil => simp [enumRows]
  | cons x t ih => simp [enumRows, ih]

theorem enumRows_gid (i : Nat) (xs : List α) :
    enumRows (fun g (_ : α) => [g]) i xs = List.range' i xs.length := by
  induction xs generalizing i with
  | nil => simp [enumRows]
  | cons x t ih => simp [enumRows, ih, List.range'_succ]

theorem mem_enumRows {f : Nat → α → List β} {i : Nat} {xs : List α} {r : β}
    (h : r ∈ enumRows f i xs) :
    ∃ k, ∃ hk : k < xs.length, r ∈ f (i + k) (xs.get ⟨k, hk⟩) := by
  induction xs generalizing i with
  | nil => simp [enumRows] at h
  | cons x t ih =>
    rw [enumRows, List.mem_append] at h
    rcases h with h | h
    · exact ⟨0, by simp, h⟩
    · obtain ⟨k, hk, hr⟩ := ih h
      refine ⟨k + 1, by simp; omega, ?_⟩
      have harith : i + 1 + k = i + (k + 1) := by omega
      rw [harith] at hr
      exact hr

theorem chunkSlice_length_le (eds : List EditionMeta) (t : Nat) :
    (chunkSlice eds t).length ≤ EDITIONS_PER_CHUNK := by
  rw [chunkSlice, List.length_take]
  unfold EDITIONS_PER_CHUNK
  omega

theorem EDITIONS_PER_CHUNK_eq : EDITIONS_PER_CHUNK = 45 := rfl

/-- The chunk loop, viewed as one pass: concatenating the per-chunk
enumerations of the first `j` windows enumerates the first
`min (j*45) N` editions with their global 1-based indices. -/
theorem windowed_enumRows (f : Nat → EditionMeta → List β) (eds : List EditionMeta) :
    ∀ j, j ≤ numChunks eds.length →
      (List.range j).flatMap
          (fun t => enumRows f (t * EDITIONS_PER_CHUNK + 1) (chunkSlice eds t)) =
        enumRows f 1 (eds.take (min (j * EDITIONS_PER_CHUNK) eds.length)) := by
  intro j
  induction j with
  | zero => intro _; simp [enumRows]
  | succ j ih =>
    intro hj
    rw [List.range_succ, List.flatMap_append, ih (by omega)]
    simp only [List.flatMap_cons, List.flatMap_nil, List.append_nil]
    have hj45 : j + 1 ≤ (eds.length + 45 - 1) / 45 := hj
    have hle : j * 45 ≤ eds.length := by omega
    have hmin : min (j * EDITIONS_PER_CHUNK) eds.length = j * EDITIONS_PER_CHUNK := by
      simp only [EDITIONS_PER_CHUNK_eq]
      omega
    have hsplit : eds.take (min ((j + 1) * EDITIONS_PER_CHUNK) eds.length) =
        eds.take (j * EDITIONS_PER_CHUNK) ++ chunkSlice eds j := by
      rw [chunkSlice, ← List.take_add]
      congr 1
      simp only [EDITIONS_PER_CHUNK_eq]
      omega
    rw [hmin, hsplit, enumRows_append]
    have hlen : (eds.take (j * EDITIONS_PER_CHUNK)).length = j * EDITIONS_PER_CHUNK := by
      rw [List.length_take, hmin]
    rw [hlen, Nat.add_comm 1 (j * EDITIONS_PER_CHUNK)]

theorem numChunks_mul_ge (n : Nat) : n ≤ numChunks n * EDITIONS_PER_CHUNK := by
  unfold numChunks EDITIONS_PER_CHUNK
  omega

/-- The whole chunk loop enumerates exactly the full edition list. -/
theorem windowed_enumRows_full (f : Nat → EditionMeta → List β) (eds : List EditionMeta) :
    (List.range (numChunks eds.length)).flatMap
        (fun t => enumRows f (t * EDITIONS_PER_CHUNK + 1) (chunkSlice eds t)) =
      enumRows f 1 eds := by
  rw [windowed_enumRows f eds (numChunks eds.length) (le_refl _)]
  have hmin : min (numChunks eds.length * EDITIONS_PER_CHUNK) eds.length = eds.length := by
    have := numChunks_mul_ge eds.length
    omega
  rw [hmin, List.take_length]

theorem flatten_map_eq (g : α → List β) (l : List α) :
    (l.map g).flatten = l.flatMap g := by
  induction l with
  | nil => simp
  | cons x t ih => simp [ih]

/-- The ids of the index rows are `1..N` in input order. -/
theorem index_ids_eq_range (eds : List EditionMeta) :
    (create_editions_index eds).map EditionRow.id = List.range' 1 eds.length := by
  rw [create_editions_index]
  have hmap : ∀ t : Nat,
      (enumRows (fun g ed => [mkIndexRow g ed (t + 1)])
          (t * EDITIONS_PER_CHUNK + 1) (chunkSlice eds t)).map EditionRow.id =
        enumRows (fun g (_ : EditionMeta) => [g])
          (t * EDITIONS_PER_CHUNK + 1) (chunkSlice eds t) := by
    intro t
    rw [map_enumRows]
    rfl
  calc ((List.range (numChunks eds.length)).flatMap fun t =>
          enumRows (fun g ed => [mkIndexRow g ed (t + 1)])
            (t * EDITIONS_PER_CHUNK + 1) (chunkSlice eds t)).map EditionRow.id
      = (List.range (numChunks eds.length)).flatMap fun t =>
          enumRows (fun g (_ : EditionMeta) => [g])
            (t * EDITIONS_PER_CHUNK + 1) (chunkSlice eds t) := by
        rw [List.map_flatMap]
        exact List.flatMap_congr (fun t _ => hmap t)
    _ = enumRows (fun g (_ : EditionMeta) => [g]) 1 eds :=
        windowed_enumRows_full _ eds
    _ = List.range' 1 eds.length := enumRows_gid 1 eds

/-- C1: the chunk partitioner builds exactly `ceil(N/45)` shard artifacts
(`numChunks N` satisfies the defining property of the ceiling); the index
artifact receives exactly `N` Edition rows with ids `1..N` in input order
(no gaps or duplicates, `range'` being strictly increasing); the row with
global id `k` carries `chunk_id = ceil(k/45) = (k+44)/45`; and `N = 294`
gives `7` chunks.  The `Nodup` hypothesis on the slugs is what the index's
UNIQUE constraint requires for the build to complete. -/
theorem C1_chunk_partitioner (eds : List EditionMeta) (files : Str → Option (List Str))
    (_hnd : (eds.map EditionMeta.id).Nodup) :
    (create_editions_shards eds files).length = numChunks eds.length ∧
    (eds.length ≤ numChunks eds.length * 45 ∧
      ∀ k, eds.length ≤ k * 45 → numChunks eds.length ≤ k) ∧
    (create_editions_index eds).map EditionRow.id = List.range' 1 eds.length ∧
    (∀ r ∈ create_editions_index eds, r.chunk_id = (r.id + 45 - 1) / 45) ∧
    numChunks 294 = 7 := by
  refine ⟨?_, ⟨?_, ?_⟩, index_ids_eq_range eds, ?_, rfl⟩
  · rw [create_editions_shards, List.length_map, List.length_range]
  · show eds.length ≤ (eds.length + 45 - 1) / 45 * 45
    omega
  · intro k hk
    show (eds.length + 45 - 1) / 45 ≤ k
    omega
  · intro r hr
    rw [create_editions_index] at hr
    obtain ⟨t, ht, hrt⟩ := List.mem_flatMap.mp hr
    obtain ⟨k, hk, hra⟩ := mem_enumRows hrt
    have hk45 : k < 45 := by
      have := chunkSlice_length_le eds t
      rw [EDITIONS_PER_CHUNK_eq] at this
      omega
    rcases List.mem_singleton.mp hra with rfl
    show t + 1 = (t * EDITIONS_PER_CHUNK + 1 + k + 45 - 1) / 45
    rw [EDITIONS_PER_CHUNK_eq]
    omega

/-- C1 witness: three editions make one chunk; ids are 1, 2, 3 with
chunk_id 1. -/
theorem C1_chunk_partitioner_witness :
    (create_editions_shards
        [⟨"a".data, [], [], [], [], []⟩, ⟨"b".data, [], [], [], [], []⟩,
         ⟨"c".data, [], [], [], [], []⟩] (fun _ => none)).length = numChunks 3 ∧
    (3 ≤ numChunks 3 * 45 ∧ ∀ k, 3 ≤ k * 45 → numChunks 3 ≤ k) ∧
    (create_editions_index
        [⟨"a".data, [], [], [], [], []⟩, ⟨"b".data, [], [], [], [], []⟩,
         ⟨"c".data, [], [], [], [], []⟩]).map EditionRow.id = List.range' 1 3 ∧
    (∀ r ∈ create_editions_index
        [⟨"a".data, [], [], [], [], []⟩, ⟨"b".data, [], [], [], [], []⟩,
         ⟨"c".data, [], [], [], [], []⟩], r.chunk_id = (r.id + 45 - 1) / 45) ∧
    numChunks 294 = 7 :=
  C1_chunk_partitioner
    [⟨"a".data, [], [], [], [], []⟩, ⟨"b".data, [], [], [], [], []⟩,
     ⟨"c".data, [], [], [], [], []⟩] (fun _ => none) (by decide)

/-- C6 counterexample: an edition listed in the metadata whose translation
document is missing still contributes its Edition row to the index
artifact — the index INSERT at lines 362–365 runs before the
`if not toon_file.exists(): continue` check at lines 368–370 — so it does
not "contribute no rows to any artifact": only the shard stays empty. -/
theorem C6_missing_file_counterexample :
    create_editions_index [⟨"x".data, "A".data, "en".data, "ltr".data, [], []⟩] =
      [⟨1, "x".data, some ("A".data), some ("en".data), some ("ltr".data),
        some [], some [], 1⟩] ∧
    create_editions_shards [⟨"x".data, "A".data, "en".data, "ltr".data, [], []⟩]
      (fun _ => none) = [[]] := by
  exact ⟨rfl, rfl⟩

/-- C6 amended: an edition whose translation document is missing
contributes no Translation row to any shard, but its Edition row is still
written to the index artifact (the index insert precedes the existence
check), and the remaining editions are processed normally — the combined
shard content is the per-edition concatenation in which the missing
edition contributes the empty list. -/
theorem C6_missing_file_keeps_index_row (eds : List EditionMeta)
    (files : Str → Option (List Str)) (k : Nat) (hk : k < eds.length)
    (hmiss : files ((eds.get ⟨k, hk⟩).id) = none) :
    (∀ r ∈ (create_editions_shards eds files).flatten, r.edition_id ≠ k + 1) ∧
    ((create_editions_index eds).map EditionRow.id).contains (k + 1) = true ∧
    (create_editions_shards eds files).flatten = enumRows (transRowsOf files) 1 eds := by
  have hflat : (create_editions_shards eds files).flatten =
      enumRows (transRowsOf files) 1 eds := by
    rw [create_editions_shards, flatten_map_eq]
    exact windowed_enumRows_full _ eds
  refine ⟨?_, ?_, hflat⟩
  · intro r hr
    rw [hflat] at hr
    obtain ⟨j, hj, hrj⟩ := mem_enumRows hr
    have hgid : r.edition_id = 1 + j := by
      rw [transRowsOf] at hrj
      rcases hfj : files ((eds.get ⟨j, hj⟩).id) with _ | ls
      · rw [hfj] at hrj
        simp at hrj
      · rw [hfj] at hrj
        obtain ⟨p, _, rfl⟩ := List.mem_map.mp hrj
        rfl
    intro hcontra
    have hjk : j = k := by omega
    subst hjk
    rw [transRowsOf, hmiss] at hrj
    simp at hrj
  · rw [index_ids_eq_range]
    have hmem : k + 1 ∈ List.range' 1 eds.length := by
      rw [List.mem_range'_1]
      omega
    simpa using hmem

/-- C6 witness: two editions, the first one's document missing, the second
present with one verse; the index keeps both rows, the shard only carries
rows of edition 2. -/
theorem C6_missing_file_keeps_index_row_witness :
    (∀ r ∈ (create_editions_shards
        [⟨"x".data, [], [], [], [], []⟩, ⟨"y".data, [], [], [], [], []⟩]
        (fun sl => if sl = "y".data then some ["1,1,\"T\"".data] else none)).flatten,
      r.edition_id ≠ 0 + 1) ∧
    ((create_editions_index
        [⟨"x".data, [], [], [], [], []⟩, ⟨"y".data, [], [], [], [], []⟩]).map
        EditionRow.id).contains (0 + 1) = true ∧
    (create_editions_shards
        [⟨"x".data, [], [], [], [], []⟩, ⟨"y".data, [], [], [], [], []⟩]
        (fun sl => if sl = "y".data then some ["1,1,\"T\"".data] else none)).flatten =
      enumRows (transRowsOf
        (fun sl => if sl = "y".data then some ["1,1,\"T\"".data] else none)) 1
        [⟨"x".data, [], [], [], [], []⟩, ⟨"y".data, [], [], [], [], []⟩] :=
  C6_missing_file_keeps_index_row
    [⟨"x".data, [], [], [], [], []⟩, ⟨"y".data, [], [], [], [], []⟩]
    (fun sl => if sl = "y".data then some ["1,1,\"T\"".data] else none)
    0 (by decide) (by decide)

/-- C8 counterexample: an edition record with an empty author field keeps
the empty string in its index row (`author = some ""`), it is not
normalized to SQL NULL; `create_editions_chunked` binds `ed['author']`
verbatim. -/
theorem C8_empty_string_counterexample :
    parse_editions_toon ["slug,,en,ltr".data] =
      [⟨"slug".data, [], "en".data, "ltr".data, [], []⟩] ∧
    create_editions_index [⟨"slug".data, [], "en".data, "ltr".data, [], []⟩] =
      [⟨1, "slug".data, some [], some ("en".data), some ("ltr".data),
        some [], some [], 1⟩] := by
  exact ⟨rfl, rfl⟩

/-- C8 amended: the empty-string-to-null normalization exists only for the
reciter `style` field (`match.group(3) or None`): a parsed reciter row
never stores `style` as the empty string.  Edition `author` and `note` are
stored verbatim as (possibly empty) strings — every index row carries
`some ed.author` / `some ed.note` for its source record, never `none`. -/
theorem C8_null_normalization_policy :
    (∀ raw rec, parseRecitationLine raw = some rec → rec.style ≠ some []) ∧
    (∀ eds r, r ∈ create_editions_index eds →
      ∃ ed ∈ eds, r.author = some ed.author ∧ r.note = some ed.note) := by
  constructor
  · intro raw rec h
    rw [parseRecitationLine] at h
    dsimp only at h
    iterate 9
      (split at h
       any_goals exact Option.noConfusion h)
    have hrec := Option.some.inj h
    subst hrec
    dsimp only
    split
    · simp
    · rename_i hg
      exact fun hc => hg (Option.some.inj hc)
  · intro eds r hr
    rw [create_editions_index] at hr
    obtain ⟨t, _, hrt⟩ := List.mem_flatMap.mp hr
    obtain ⟨k, hk, hra⟩ := mem_enumRows hrt
    rcases List.mem_singleton.mp hra with rfl
    refine ⟨(chunkSlice eds t).get ⟨k, hk⟩, ?_, rfl, rfl⟩
    have hmem : (chunkSlice eds t).get ⟨k, hk⟩ ∈ chunkSlice eds t :=
      List.get_mem _ _ hk
    unfold chunkSlice at hmem
    exact List.drop_subset _ _ (List.take_subset _ _ hmem)

/-- C8 witness: an empty style group yields `style = none`, and a concrete
index row carries its (empty) author string verbatim. -/
theorem C8_null_normalization_policy_witness :
    ((⟨1, "Alafasy".data, none, 6236⟩ : ReciterRec).style ≠ some []) ∧
    (∃ ed ∈ [(⟨"slug".data, [], "en".data, "ltr".data, [], []⟩ : EditionMeta)],
      (⟨1, "slug".data, some [], some ("en".data), some ("ltr".data),
        some [], some [], 1⟩ : EditionRow).author = some ed.author ∧
      (⟨1, "slug".data, some [], some ("en".data), some ("ltr".data),
        some [], some [], 1⟩ : EditionRow).note = some ed.note) :=
  ⟨C8_null_normalization_policy.1 ("1,Alafasy,,6236".data)
      ⟨1, "Alafasy".data, none, 6236⟩ (by rfl),
   C8_null_normalization_policy.2
      [⟨"slug".data, [], "en".data, "ltr".data, [], []⟩]
      ⟨1, "slug".data, some [], some ("en".data), some ("ltr".data),
        some [], some [], 1⟩ (by decide)⟩

/-- C5: a per-volume artifact whose metadata table is missing (every
best-effort key lookup fails, which is also what a metadata table without
any of the four keys produces) still gets exactly one index row — name
defaulting to the filename stem, author/language/source null — and the
remaining volumes are processed unchanged.  The `ayahs` row count is the
one query outside the per-key fallbacks, so the volume must be readable
there (see C10). -/
theorem C5_missing_metadata_still_indexed (pre : List Volume) (v : Volume)
    (post : List Volume) (cnt : Nat)
    (hkeep : keepVolume v = true)
    (hayahs : v.ayahsCount = .ok cnt)
    (hname : metaLookup v ("name".data) = none)
    (hauthor : metaLookup v ("author".data) = none)
    (hlang : metaLookup v ("language".data) = none)
    (hsrc : metaLookup v ("source".data) = none) :
    create_tafsirs_index (pre ++ v :: post) =
      create_tafsirs_index pre ++
        [⟨v.stem, v.stem, none, none, none, cnt, v.size⟩] ++
      create_tafsirs_index post := by
  have hproc : processVolume v = some ⟨v.stem, v.stem, none, none, none, cnt, v.size⟩ := by
    rw [processVolume]
    simp [hayahs, hname, hauthor, hlang, hsrc]
  simp only [create_tafsirs_index, List.filter_append, List.filter_cons, hkeep,
    if_true, List.filterMap_append, List.filterMap_cons, hproc]
  simp

/-- C5 witness: a volume with no metadata table, between two readable
volumes. -/
theorem C5_missing_metadata_still_indexed_witness :
    create_tafsirs_index
        [⟨"a".data, 10, .ok 3, .ok [("name".data, "A".data)]⟩,
         ⟨"vol".data, 123, .ok 5, .error ()⟩,
         ⟨"b".data, 20, .ok 4, .ok []⟩] =
      create_tafsirs_index [⟨"a".data, 10, .ok 3, .ok [("name".data, "A".data)]⟩] ++
        [⟨"vol".data, "vol".data, none, none, none, 5, 123⟩] ++
      create_tafsirs_index [⟨"b".data, 20, .ok 4, .ok []⟩] :=
  C5_missing_metadata_still_indexed
    [⟨"a".data, 10, .ok 3, .ok [("name".data, "A".data)]⟩]
    ⟨"vol".data, 123, .ok 5, .error ()⟩
    [⟨"b".data, 20, .ok 4, .ok []⟩] 5
    (by decide) rfl rfl rfl rfl rfl

/-- C10: a volume whose `ayahs` table cannot be read contributes no index
row at all — the row-count query sits in the outer try, not under the
per-key fallbacks, so the whole volume is skipped — while every other
readable, kept volume still receives an index row carrying its stem as
slug. -/
theorem C10_unreadable_ayahs_skips_volume (pre : List Volume) (v : Volume)
    (post : List Volume)
    (hayahs : v.ayahsCount = .error ()) :
    create_tafsirs_index (pre ++ v :: post) =
      create_tafsirs_index pre ++ create_tafsirs_index post ∧
    (∀ w ∈ pre ++ post, ∀ cnt, keepVolume w = true → w.ayahsCount = .ok cnt →
      ∃ r ∈ create_tafsirs_index (pre ++ v :: post), r.slug = w.stem) := by
  have hproc : processVolume v = none := by
    rw [processVolume, hayahs]
  constructor
  · by_cases hk : keepVolume v = true
    · simp only [create_tafsirs_index, List.filter_append, List.filter_cons, hk,
        if_true, List.filterMap_append, List.filterMap_cons, hproc]
    · have hk2 : keepVolume v = false := by simpa using hk
      simp only [create_tafsirs_index, List.filter_append, List.filter_cons, hk2,
        Bool.false_eq_true, if_false, List.filterMap_append]
  · intro w hw cnt hkw hokw
    have hproc2 : processVolume w =
        some ⟨w.stem, (metaLookup w ("name".data)).getD w.stem,
              metaLookup w ("author".data), metaLookup w ("language".data),
              metaLookup w ("source".data), cnt, w.size⟩ := by
      rw [processVolume, hokw]
    refine ⟨⟨w.stem, (metaLookup w ("name".data)).getD w.stem,
      metaLookup w ("author".data), metaLookup w ("language".data),
      metaLookup w ("source".data), cnt, w.size⟩, ?_, rfl⟩
    rw [create_tafsirs_index]
    apply List.mem_filterMap.mpr
    refine ⟨w, ?_, hproc2⟩
    apply List.mem_filter.mpr
    refine ⟨?_, hkw⟩
    rcases List.mem_append.mp hw with hwl | hwr
    · exact List.mem_append.mpr (Or.inl hwl)
    · exact List.mem_append.mpr (Or.inr (List.mem_cons_of_mem v hwr))

/-- C10 witness: the middle volume's `ayahs` table is unreadable; it gets
no row, and the kept readable volume "a" still gets one. -/
theorem C10_unreadable_ayahs_skips_volume_witness :
    (create_tafsirs_index
        [⟨"a".data, 10, .ok 3, .ok []⟩, ⟨"bad".data, 9, .error (), .ok []⟩] =
      create_tafsirs_index [⟨"a".data, 10, .ok 3, .ok []⟩] ++
        create_tafsirs_index ([] : List Volume)) ∧
    (∀ w ∈ [⟨"a".data, 10, .ok 3, .ok []⟩] ++ ([] : List Volume),
      ∀ cnt, keepVolume w = true → w.ayahsCount = .ok cnt →
      ∃ r ∈ create_tafsirs_index
          [⟨"a".data, 10, .ok 3, .ok []⟩, ⟨"bad".data, 9, .error (), .ok []⟩],
        r.slug = w.stem) :=
  C10_unreadable_ayahs_skips_volume [⟨"a".data, 10, .ok 3, .ok []⟩]
    ⟨"bad".data, 9, .error (), .ok []⟩ [] rfl

/-- C9: the pipeline's row sets are a pure function of its input (the model
is deterministic by construction), and the only artifact the pipeline both
writes and re-reads — the tafsir index in the destination directory — is
excluded from its own input scan, so a second run over the first run's
unchanged source (whose destination now also contains `index.db`, and in
which every pre-existing artifact is deleted and rebuilt by `init_db`)
reproduces identical row sets in every artifact. -/
theorem C9_second_run_reproduces_rows (inp : PipelineInput) (vols2 : List Volume)
    (hfilter : vols2.filter keepVolume = inp.tafsirVolumes.filter keepVolume) :
    runPipeline { inp with tafsirVolumes := vols2 } = runPipeline inp := by
  rw [runPipeline, runPipeline]
  dsimp only
  rw [create_tafsirs_index, create_tafsirs_index, hfilter]

/-- C9 witness: adding the previously produced `index.db` (and a legacy
`master.db`) to the destination scan does not change any output row set. -/
theorem C9_second_run_reproduces_rows_witness :
    runPipeline
      { quranLines := ["1,1,\"T\"".data], infoLines := ["- chapter: 1".data],
        editionsLines := ["e,A,en,ltr".data], editionFiles := fun _ => none,
        tajweedLines := [], glyphPages := [], mutashabihatLines := [],
        recitationsLines := ["1,R,,6236".data],
        tafsirVolumes := [⟨"vol".data, 7, .ok 2, .ok []⟩,
                          ⟨"index".data, 1, .ok 0, .error ()⟩,
                          ⟨"master".data, 1, .ok 0, .error ()⟩] } =
    runPipeline
      { quranLines := ["1,1,\"T\"".data], infoLines := ["- chapter: 1".data],
        editionsLines := ["e,A,en,ltr".data], editionFiles := fun _ => none,
        tajweedLines := [], glyphPages := [], mutashabihatLines := [],
        recitationsLines := ["1,R,,6236".data],
        tafsirVolumes := [⟨"vol".data, 7, .ok 2, .ok []⟩]} :=
  C9_second_run_reproduces_rows
    { quranLines := ["1,1,\"T\"".data], infoLines := ["- chapter: 1".data],
      editionsLines := ["e,A,en,ltr".data], editionFiles := fun _ => none,
      tajweedLines := [], glyphPages := [], mutashabihatLines := [],
      recitationsLines := ["1,R,,6236".data],
      tafsirVolumes := [⟨"vol".data, 7, .ok 2, .ok []⟩] }
    [⟨"vol".data, 7, .ok 2, .ok []⟩, ⟨"index".data, 1, .ok 0, .error ()⟩,
     ⟨"master".data, 1, .ok 0, .error ()⟩]
    (by decide)

end QuranToSql
